import Mathlib

/-!
Verification development for the umcp request-to-process pipeline.

The Go sources under internal/ are shallowly embedded as Lean functions:
pure Go functions become Lean functions, Go maps become association lists
with insert-overwrite semantics, process execution and the standard
library codecs (regexp engine, JSON/CSV/XML decoding) are external
collaborators and appear as explicit parameters.  Strings are Lean
strings; where Go measures bytes, the byte-level view is modelled over
lists of byte values with a comment at the definition.
-/

namespace Umcp

/-! ## String helpers mirroring the Go standard library functions used -/

/-- Go strings.HasPrefix (structural over the character lists, so that
    concrete instances reduce inside the kernel). -/
def goHasPre (s pre : String) : Bool :=
  pre.data.isPrefixOf s.data

/-- Go strings.HasSuffix. -/
def goHasSuf (s suf : String) : Bool :=
  suf.data.isSuffixOf s.data

/-- Go strings.Contains: substr occurs inside s. -/
def strContains (s substr : String) : Bool :=
  s.data.tails.any (fun t => substr.data.isPrefixOf t)

/-- Split a character list at every occurrence of the separator. -/
def splitOnChar (c : Char) : List Char → List (List Char)
  | [] => [[]]
  | x :: rest =>
    match splitOnChar c rest with
    | [] => [[]]
    | cur :: parts => if x = c then [] :: cur :: parts else (x :: cur) :: parts

/-- Go strings.Split for a one-character separator (the only separators
    the source splits on are "/", " " and a newline). -/
def strSplitChar (s : String) (c : Char) : List String :=
  (splitOnChar c s.data).map String.mk

/-- Go strings.TrimSuffix: drop the suffix when present, else unchanged. -/
def trimSufStr (s suf : String) : String :=
  if goHasSuf s suf then String.mk (s.data.take (s.data.length - suf.data.length)) else s

/-- Go strings.TrimPrefix: drop the leading occurrence when present, else unchanged. -/
def trimPreStr (s pre : String) : String :=
  if goHasPre s pre then String.mk (s.data.drop pre.data.length) else s

/-- Go strings.Trim with a one-character cutset: drop that character from both ends. -/
def trimChar (s : String) (c : Char) : String :=
  String.mk (((s.data.dropWhile (· = c)).reverse.dropWhile (· = c)).reverse)

/-- The whitespace class of Go strings.TrimSpace, restricted to the ASCII
    space characters (the Unicode-only spaces never occur in the claims). -/
def isGoSpace (c : Char) : Bool :=
  c = ' ' || c = '\t' || c = '\n' || c = '\r' || c.toNat = 11 || c.toNat = 12

/-- Go strings.TrimSpace over the ASCII whitespace class. -/
def trimSpaceStr (s : String) : String :=
  String.mk (((s.data.dropWhile isGoSpace).reverse.dropWhile isGoSpace).reverse)

/-- Go filepath.Base (unix rules): empty path gives ".", trailing slashes are
    dropped, a path of only slashes gives "/", otherwise the last component. -/
def goBase (path : String) : String :=
  if path = "" then "."
  else
    let cs := path.data.reverse.dropWhile (· = '/')
    if cs.isEmpty then "/"
    else String.mk ((cs.takeWhile (· ≠ '/')).reverse)

/-- One pass of the lexical cleaning loop of Go filepath.Clean over the
    slash-separated components: drops empty and "." components, a ".."
    cancels the previous kept component, and at the root ".." disappears. -/
def cleanComponents (rooted : Bool) : List String → List String → List String
  | [], acc => acc.reverse
  | c :: rest, acc =>
    if c = "" ∨ c = "." then cleanComponents rooted rest acc
    else if c = ".." then
      match acc with
      | top :: accTail =>
        if top = ".." then cleanComponents rooted rest (c :: top :: accTail)
        else cleanComponents rooted rest accTail
      | [] =>
        if rooted then cleanComponents rooted rest []
        else cleanComponents rooted rest [".."]
    else cleanComponents rooted rest (c :: acc)

/-- Go filepath.Clean for unix paths. -/
def goClean (path : String) : String :=
  let rooted := goHasPre path "/"
  let comps := cleanComponents rooted (strSplitChar path '/') []
  let body := String.intercalate "/" comps
  if rooted then
    if body = "" then "/" else "/" ++ body
  else
    if body = "" then "." else body

/-- Go filepath.Abs, with the working directory passed explicitly instead of
    read from the process (filepath.Abs only errors when Getwd errors, which
    the explicit parameter removes). -/
def goAbs (cwd path : String) : String :=
  if goHasPre path "/" then goClean path
  else goClean (cwd ++ "/" ++ path)

/-! ## Data model (internal/config/schema.go) -/

/-- Go float64 values are modelled as exact scaled decimals
    mant / 10 ^ exp10; the values reaching the builder originate from
    decimal JSON and YAML literals, which this represents exactly. -/
structure GoFloat where
  mant : Int
  exp10 : Nat

/-- The dynamic values of Go interface\x7b\x7d as produced by JSON and YAML
    decoding: strings, booleans, integers, floats, arrays and objects. -/
inductive Value where
  | vstr : String → Value
  | vbool : Bool → Value
  | vint : Int → Value
  | vfloat : GoFloat → Value
  | varr : List Value → Value
  | vobj : List (String × Value) → Value

/-- Security section of a catalog configuration (schema.go). -/
structure Security where
  allowedPaths : List String
  blockedCommands : List String
  maxOutputSize : Int
  rateLimit : String
  disableInjectionCheck : Bool

/-- Settings section of a catalog configuration (schema.go); the timeout is
    a Go time.Duration carried as its nanosecond count. -/
structure Settings where
  command : String
  workingDir : String
  timeout : Int
  environment : List String
  shell : String

/-- Metadata section of a catalog configuration (schema.go). -/
structure Metadata where
  name : String
  description : String
  version : String

/-- One regex capture group declaration (schema.go). -/
structure Group where
  name : String
  type : String

/-- Output parsing declaration of a tool (schema.go). -/
structure Output where
  type : String
  pattern : String
  groups : List Group
  jq : String

/-- One command-line argument declaration (schema.go). -/
structure Argument where
  name : String
  description : String
  type : String
  required : Bool
  flag : String
  default : Option Value
  min : Option Int
  max : Option Int
  validation : String
  «when» : String
  positional : Bool
  position : Int

/-- One step of a command chain (schema.go). -/
structure Chain where
  command : String
  arguments : List String

/-- One tool declaration (schema.go). -/
structure Tool where
  name : String
  description : String
  command : String
  arguments : List Argument
  output : Output
  chain : List Chain

/-- One loaded catalog configuration (schema.go). -/
structure Config where
  version : String
  metadata : Metadata
  settings : Settings
  security : Security
  tools : List Tool

/-! ## Path and command checks (internal/config, validator helpers) -/

/-- IsPathAllowed: an empty allowed set admits every path; otherwise the
    absolute form of the path must have the absolute form of some allowed
    entry as a plain string prefix.  The working directory used by
    filepath.Abs is an explicit parameter. -/
def IsPathAllowed (cwd : String) (path : String) (allowedPaths : List String) : Bool :=
  if allowedPaths.isEmpty then true
  else allowedPaths.any (fun allowed => goHasPre (goAbs cwd path) (goAbs cwd allowed))

/-- IsCommandBlocked: exact membership of the command in the blocked list. -/
def IsCommandBlocked (command : String) (blockedCommands : List String) : Bool :=
  blockedCommands.any (fun blocked => command = blocked)

/-! ## Sandbox (internal/executor/executor.go, Sandbox) -/

/-- The fixed metacharacter and substring set scanned for by
    hasInjectionPattern. -/
def dangerousPatterns : List String :=
  ["$(", "\x60", "&&", "||", ";", "|", ">", "<", ">>", "<<",
   "\n", "\r", "$IFS", "$\x7bIFS\x7d"]

/-- hasInjectionPattern: does the token contain any dangerous pattern. -/
def hasInjectionPattern (input : String) : Bool :=
  dangerousPatterns.any (fun pattern => strContains input pattern)

/-- looksLikeFilePath: the heuristic path shape test. -/
def looksLikeFilePath (input : String) : Bool :=
  goHasPre input "/" || goHasPre input "./" ||
  goHasPre input "../" || strContains input "/"

/-- Sandbox.ValidateCommand: empty command check, blocked basename check on
    the first token, injection scan over every token, then the allowed-path
    check on every later path-shaped token.  As in the source, the
    disableInjectionCheck flag of the policy is never consulted. -/
def ValidateCommand (cwd : String) (cmdParts : List String) (security : Security) :
    Except String Unit :=
  match cmdParts with
  | [] => .error "empty command"
  | first :: rest =>
    let cmd := goBase first
    if IsCommandBlocked cmd security.blockedCommands then
      .error ("command \x27" ++ cmd ++ "\x27 is blocked")
    else if (first :: rest).any hasInjectionPattern then
      .error "potential command injection detected"
    else
      match rest.find? (fun part =>
          looksLikeFilePath part && !IsPathAllowed cwd part security.allowedPaths) with
      | some part => .error ("path \x27" ++ part ++ "\x27 is not in allowed paths")
      | none => .ok ()

/-! ## Numeric parsing and rendering (strconv / fmt models) -/

/-- Decimal digit run to an integer value. -/
def digitsVal (ds : List Char) : Int :=
  ds.foldl (fun n c => n * 10 + ((c.toNat : Int) - 48)) 0

/-- Go strconv.Atoi: optional sign then one or more digits, nothing else.
    Go additionally errors when the value overflows the machine int; the
    model is unbounded. -/
def atoi (s : String) : Option Int :=
  match s.data with
  | [] => none
  | c :: rest =>
    let p := if c = '-' then (true, rest)
             else if c = '+' then (false, rest)
             else (false, c :: rest)
    if p.2.isEmpty || !(p.2.all Char.isDigit) then none
    else some (if p.1 then -(digitsVal p.2) else digitsVal p.2)

/-- Drop factors of ten shared by the scaled-decimal representation. -/
def stripZeros : Int → Nat → Int × Nat
  | m, 0 => (m, 0)
  | m, e + 1 => if m % 10 = 0 then stripZeros (m / 10) e else (m, e + 1)

/-- Render a scaled decimal m / 10 ^ e in plain positional form. -/
def decString (m : Int) (e : Nat) : String :=
  if e = 0 then toString m
  else
    let s0 := toString m.natAbs
    let s := if s0.length ≤ e then String.mk (List.replicate (e + 1 - s0.length) '0') ++ s0
             else s0
    let ip := String.mk (s.data.take (s.data.length - e))
    let fp := String.mk (s.data.drop (s.data.length - e))
    (if m < 0 then "-" else "") ++ ip ++ "." ++ fp

/-- The shortest-decimal rendering fmt %v uses for float64 values, for the
    plain-decimal range (the exponent notation for very large or small
    magnitudes is not modelled; no claim exercises it). -/
def goFloatV (f : GoFloat) : String :=
  let p := stripZeros f.mant f.exp10
  decString p.1 p.2

/-- fmt %f: fixed six decimal places (exact when the value has at most six
    decimal digits; beyond that the model truncates where Go rounds). -/
def goFloatF (f : GoFloat) : String :=
  let scaled : Int :=
    if f.exp10 ≤ 6 then f.mant * (10 : Int) ^ (6 - f.exp10)
    else f.mant.tdiv ((10 : Int) ^ (f.exp10 - 6))
  decString scaled 6

/-- The Go conversion int(f) for float64: truncation toward zero. -/
def truncGoFloat (f : GoFloat) : Int :=
  f.mant.tdiv ((10 : Int) ^ f.exp10)

/-- Shared decimal scanner: optional sign, digits, optional fraction, then
    an optional exponent part; returns the value and the unconsumed rest. -/
def scanDecimal (cs : List Char) : Option (GoFloat × List Char) :=
  let p := match cs with
    | '-' :: r => (true, r)
    | '+' :: r => (false, r)
    | r => (false, r)
  let neg := p.1
  let cs1 := p.2
  let ip := cs1.takeWhile Char.isDigit
  let cs2 := cs1.drop ip.length
  let q := match cs2 with
    | '.' :: r => (r.takeWhile Char.isDigit, r.drop (r.takeWhile Char.isDigit).length)
    | r => (([] : List Char), r)
  let fp := q.1
  let cs3 := q.2
  if ip.isEmpty && fp.isEmpty then none
  else
    let mant0 := digitsVal (ip ++ fp)
    let mant := if neg then -mant0 else mant0
    let baseExp : Int := (fp.length : Int)
    match cs3 with
    | e :: r =>
      if e = 'e' || e = 'E' then
        let ep := match r with
          | '-' :: r2 => (true, r2)
          | '+' :: r2 => (false, r2)
          | r2 => (false, r2)
        let eds := ep.2.takeWhile Char.isDigit
        if eds.isEmpty then none
        else
          let ev := digitsVal eds
          let net := baseExp - (if ep.1 then -ev else ev)
          let f : GoFloat :=
            if net ≤ 0 then ⟨mant * (10 : Int) ^ (-net).toNat, 0⟩ else ⟨mant, net.toNat⟩
          some (f, ep.2.drop eds.length)
      else some (⟨mant, fp.length⟩, e :: r)
    | [] => some (⟨mant, fp.length⟩, [])

/-- Go strconv.ParseFloat for plain decimal syntax: the whole string must
    be consumed (the inf, NaN and hexadecimal-float forms are not
    modelled; no claim exercises them). -/
def parseGoFloat (s : String) : Option GoFloat :=
  match scanDecimal s.data with
  | some (f, []) => some f
  | _ => none

/-- fmt.Sscanf with verb %d: skip leading spaces, optional sign, at least
    one digit; trailing input is ignored. -/
def scanInt (s : String) : Option Int :=
  let cs := s.data.dropWhile (fun c => isGoSpace c)
  let p := match cs with
    | '-' :: r => (true, r)
    | '+' :: r => (false, r)
    | r => (false, r)
  let ds := p.2.takeWhile Char.isDigit
  if ds.isEmpty then none
  else some (if p.1 then -(digitsVal ds) else digitsVal ds)

/-- fmt.Sscanf with verb %f: a decimal number at the front; trailing input
    is ignored. -/
def scanFloat (s : String) : Option GoFloat :=
  match scanDecimal (s.data.dropWhile (fun c => isGoSpace c)) with
  | some (f, _) => some f
  | none => none

/-! ## Rendering of dynamic values (fmt %v and encoding/json) -/

/-- Insertion into a key-sorted list of rendered pairs; Go prints map keys
    in sorted order both in fmt %v and in encoding/json. -/
def insertPair (p : String × String) : List (String × String) → List (String × String)
  | [] => [p]
  | q :: rest => if p.1 < q.1 then p :: q :: rest else q :: insertPair p rest

/-- Sort rendered key-value pairs by key. -/
def sortPairs : List (String × String) → List (String × String)
  | [] => []
  | p :: rest => insertPair p (sortPairs rest)

/-- fmt %v rendering of a dynamic value (fmt.Sprintf("%v", value)). -/
def goSprintV : Value → String
  | .vstr s => s
  | .vbool b => if b then "true" else "false"
  | .vint n => toString n
  | .vfloat f => goFloatV f
  | .varr l =>
    "[" ++ String.intercalate " " (l.attach.map (fun x => goSprintV x.1)) ++ "]"
  | .vobj kvs =>
    let rendered := kvs.attach.map (fun x => (x.1.1, goSprintV x.1.2))
    "map[" ++ String.intercalate " " ((sortPairs rendered).map (fun p => p.1 ++ ":" ++ p.2)) ++ "]"
decreasing_by
  all_goals simp_wf
  · have := List.sizeOf_lt_of_mem x.2; omega
  · obtain ⟨⟨a, b⟩, hx⟩ := x
    have h1 := List.sizeOf_lt_of_mem hx
    simp at h1 ⊢
    omega

/-- Hexadecimal digit for the \u escapes of encoding/json. -/
def hexDigit (n : Nat) : Char :=
  if n < 10 then Char.ofNat (48 + n) else Char.ofNat (87 + n)

/-- One character under the encoding/json string escaper (HTML escaping
    enabled, as json.Marshal defaults to). -/
def jsonEscapeChar (c : Char) : String :=
  if c = '"' then "\\\""
  else if c = '\\' then "\\\\"
  else if c = '\n' then "\\n"
  else if c = '\r' then "\\r"
  else if c = '\t' then "\\t"
  else if c = '<' then "\\u003c"
  else if c = '>' then "\\u003e"
  else if c = '&' then "\\u0026"
  else if c.toNat < 32 then
    "\\u00" ++ String.mk [hexDigit (c.toNat / 16), hexDigit (c.toNat % 16)]
  else String.mk [c]

/-- encoding/json string quoting. -/
def jsonQuote (s : String) : String :=
  "\"" ++ String.join (s.data.map jsonEscapeChar) ++ "\""

/-- Compact encoding/json rendering of a dynamic value (json.Marshal);
    object keys come out sorted, as Go marshals maps. -/
def jsonRender : Value → String
  | .vstr s => jsonQuote s
  | .vbool b => if b then "true" else "false"
  | .vint n => toString n
  | .vfloat f => goFloatV f
  | .varr l =>
    "[" ++ String.intercalate "," (l.attach.map (fun x => jsonRender x.1)) ++ "]"
  | .vobj kvs =>
    let rendered := kvs.attach.map (fun x => (x.1.1, jsonRender x.1.2))
    "\x7b" ++
      String.intercalate "," ((sortPairs rendered).map (fun p => jsonQuote p.1 ++ ":" ++ p.2)) ++
      "\x7d"
decreasing_by
  all_goals simp_wf
  · have := List.sizeOf_lt_of_mem x.2; omega
  · obtain ⟨⟨a, b⟩, hx⟩ := x
    have h1 := List.sizeOf_lt_of_mem hx
    simp at h1 ⊢
    omega

/-- The Go reflect type name printed by the %T verb in the builder error
    messages. -/
def goTypeName : Value → String
  | .vstr _ => "string"
  | .vbool _ => "bool"
  | .vint _ => "int"
  | .vfloat _ => "float64"
  | .varr _ => "[]interface \x7b\x7d"
  | .vobj _ => "map[string]interface \x7b\x7d"

/-! ## Command Builder (internal/executor/builder.go) -/

/-- CommandBuilder.formatValue. -/
def formatValue (argType : String) (value : Value) : Except String String :=
  match argType with
  | "string" =>
    match value with
    | .vstr s => .ok s
    | _ => .ok (goSprintV value)
  | "integer" =>
    match value with
    | .vfloat f => .ok (toString (truncGoFloat f))
    | .vint n => .ok (toString n)
    | .vstr s =>
      match atoi s with
      | some i => .ok (toString i)
      | none => .error ("invalid integer: " ++ s)
    | _ => .error ("expected integer, got " ++ goTypeName value)
  | "float" =>
    match value with
    | .vfloat f => .ok (goFloatF f)
    | .vint n => .ok (goFloatF ⟨n, 0⟩)
    | .vstr s =>
      match parseGoFloat s with
      | some f => .ok (goFloatF f)
      | none => .error ("invalid float: " ++ s)
    | _ => .error ("expected float, got " ++ goTypeName value)
  | "object" => .ok (jsonRender value)
  | _ => .ok (goSprintV value)

/-- The per-element loop of the array case of buildFlag: each element is
    formatted as a string and the flag is repeated (or concatenated when
    the flag text contains an equals sign). -/
def buildArrayItems (flag : String) : List Value → Except String (List String)
  | [] => .ok []
  | item :: rest =>
    match formatValue "string" item with
    | .error e => .error e
    | .ok strVal =>
      match buildArrayItems flag rest with
      | .error e => .error e
      | .ok tail =>
        if strContains flag "=" then .ok ((flag ++ strVal) :: tail)
        else .ok (flag :: strVal :: tail)

/-- CommandBuilder.buildFlag. -/
def buildFlag (arg : Argument) (value : Value) : Except String (List String) :=
  match arg.type with
  | "boolean" =>
    match value with
    | .vbool b => if b && arg.flag ≠ "" then .ok [arg.flag] else .ok []
    | _ => .error ("expected boolean, got " ++ goTypeName value)
  | "array" =>
    let arr := match value with
      | .varr l => l
      | _ => [value]
    buildArrayItems arg.flag arr
  | _ =>
    match formatValue arg.type value with
    | .error e => .error e
    | .ok strVal =>
      if arg.flag = "" then .ok [strVal]
      else if strContains arg.flag "=" then .ok [arg.flag ++ strVal]
      else .ok [arg.flag, strVal]

/-- CommandBuilder.evaluateCondition for the when expressions. -/
def evaluateCondition (condition : String) (args : List (String × Value)) : Bool :=
  let parts := strSplitChar condition ' '
  if parts.length ≠ 3 then false
  else
    let varName := trimPreStr (trimSufStr (parts.getD 0 "") "\x7d") "$\x7b"
    let operator := parts.getD 1 ""
    let expectedValue := trimChar (parts.getD 2 "") '"'
    match args.lookup varName with
    | none => false
    | some actual =>
      if operator = "==" then goSprintV actual == expectedValue
      else if operator = "!=" then goSprintV actual != expectedValue
      else false

/-- Outcome of resolving one argument value: supplied or defaulted value,
    silently skipped, or the missing-required-argument error. -/
inductive Resolved where
  | err : String → Resolved
  | skip : Resolved
  | val : Value → Resolved

/-- The shared value-resolution prelude of both builder loops: supplied
    value, else declared default, else error when required, else skip. -/
def resolveValue (args : List (String × Value)) (arg : Argument) : Resolved :=
  match args.lookup arg.name with
  | some v => .val v
  | none =>
    match arg.default with
    | some d => .val d
    | none =>
      if arg.required then .err ("required argument " ++ arg.name ++ " not provided")
      else .skip

/-- Insertion into a position-sorted argument list. -/
def insertByPos (a : Argument) : List Argument → List Argument
  | [] => [a]
  | b :: rest => if a.position < b.position then a :: b :: rest else b :: insertByPos a rest

/-- CommandBuilder.extractPositionalArgs: keep the positional arguments and
    sort ascending by position (Go uses an unstable sort.Slice with strict
    less; ties keep declaration order here, which no claim depends on). -/
def extractPositionalArgs (arguments : List Argument) : List Argument :=
  (arguments.filter (·.positional)).foldr insertByPos []

/-- The positional-argument loop of BuildCommand. -/
def processPositionals (args : List (String × Value)) : List Argument → Except String (List String)
  | [] => .ok []
  | arg :: rest =>
    match resolveValue args arg with
    | .err m => .error m
    | .skip => processPositionals args rest
    | .val v =>
      match formatValue arg.type v with
      | .error e => .error ("failed to format " ++ arg.name ++ ": " ++ e)
      | .ok strVal =>
        match processPositionals args rest with
        | .error e => .error e
        | .ok tail => .ok (strVal :: tail)

/-- The flag-argument loop of BuildCommand (declaration order, skipping
    positionals, honoring when conditions). -/
def processFlags (args : List (String × Value)) : List Argument → Except String (List String)
  | [] => .ok []
  | arg :: rest =>
    if arg.positional then processFlags args rest
    else
      match resolveValue args arg with
      | .err m => .error m
      | .skip => processFlags args rest
      | .val v =>
        if arg.«when» ≠ "" && !evaluateCondition arg.«when» args then processFlags args rest
        else
          match buildFlag arg v with
          | .error e => .error ("failed to build flag for " ++ arg.name ++ ": " ++ e)
          | .ok flagParts =>
            match processFlags args rest with
            | .error e => .error e
            | .ok tail => .ok (flagParts ++ tail)

/-- CommandBuilder.BuildCommand: base command token, tool sub-command,
    sorted positional arguments, then flag arguments in declaration
    order. -/
def BuildCommand (cfg : Config) (tool : Tool) (args : List (String × Value)) :
    Except String (List String) :=
  let base := (if cfg.settings.command ≠ "" then [cfg.settings.command] else []) ++
              (if tool.command ≠ "" then [tool.command] else [])
  match processPositionals args (extractPositionalArgs tool.arguments) with
  | .error e => .error e
  | .ok pos =>
    match processFlags args tool.arguments with
    | .error e => .error e
    | .ok flags => .ok (base ++ pos ++ flags)

/-! ## Output Parser (internal/parser/parser.go)

The regexp engine and the JSON, CSV and XML codecs are Go standard
library collaborators; the engine result of FindAllStringSubmatch (one
list per match, the full match at index 0) and the compile outcome are
explicit parameters of the regex logic, and the other codec-backed
branches are abstracted by an explicit dispatch parameter. -/

/-- The dynamic per-group values produced by convertType. -/
inductive CellValue where
  | s : String → CellValue
  | i : Int → CellValue
  | f : GoFloat → CellValue
  | b : Bool → CellValue

/-- parser.convertType: coerce a captured string by the declared group
    type, keeping the original string when the coercion fails. -/
def convertType (value : String) (typeName : String) : CellValue :=
  match typeName with
  | "integer" =>
    match scanInt value with
    | some n => .i n
    | none => .s value
  | "float" | "number" =>
    match scanFloat value with
    | some fl => .f fl
    | none => .s value
  | "boolean" =>
    let lower := value.toLower
    if lower = "true" || lower = "yes" || lower = "1" then .b true
    else if lower = "false" || lower = "no" || lower = "0" then .b false
    else .s value
  | _ => .s value

/-- Go map insertion: any previous binding of the key is replaced. -/
def objInsert (k : String) (v : CellValue) (obj : List (String × CellValue)) :
    List (String × CellValue) :=
  obj.filter (fun p => p.1 ≠ k) ++ [(k, v)]

/-- Key membership in a per-match object. -/
def objHasKey (k : String) (obj : List (String × CellValue)) : Bool :=
  obj.any (fun p => p.1 = k)

/-- The named-groups loop of parseRegex: the group at list index i reads
    capture index i + 1, guarded by the length of the match. -/
def buildNamed (m : List String) : List Group → Nat → List (String × CellValue) →
    List (String × CellValue)
  | [], _, obj => obj
  | g :: gs, i, obj =>
    buildNamed m gs (i + 1)
      (if i + 1 < m.length then objInsert g.name (convertType (m.getD (i + 1) "") g.type) obj
       else obj)

/-- The numbered-groups loop of parseRegex: synthetic keys group1, group2,
    one per submatch, skipping the full match at index 0. -/
def buildNumbered (m : List String) : List (String × CellValue) :=
  (m.enum.filter (fun p => p.1 > 0)).foldl
    (fun obj p => objInsert ("group" ++ toString p.1) (.s p.2) obj) []

/-- One match of parseRegex turned into its object. -/
def perMatchObject (groups : List Group) (m : List String) : List (String × CellValue) :=
  if 0 < groups.length then buildNamed m groups 0 []
  else buildNumbered m

/-- encoding/json rendering of one coerced group value. -/
def renderCell : CellValue → String
  | .s str => jsonQuote str
  | .i n => toString n
  | .f fl => goFloatV fl
  | .b bl => if bl then "true" else "false"

/-- json.MarshalIndent rendering of one per-match object at array depth,
    keys in sorted order as Go marshals maps. -/
def renderRegexObj (obj : List (String × CellValue)) : String :=
  let rendered := sortPairs (obj.map (fun p => (p.1, renderCell p.2)))
  if rendered.isEmpty then "\x7b\x7d"
  else
    "\x7b\n" ++
      String.intercalate ",\n" (rendered.map (fun p => "    " ++ jsonQuote p.1 ++ ": " ++ p.2)) ++
      "\n  \x7d"

/-- json.MarshalIndent of the collected result slice.  The slice variable
    of parseRegex starts as a nil slice and is only ever appended to, so
    it is nil exactly when no match was found, and Go marshals a nil
    slice as the JSON text null. -/
def marshalRegexResults (results : List (List (String × CellValue))) : String :=
  if results.isEmpty then "null"
  else
    "[\n" ++ String.intercalate ",\n" (results.map (fun obj => "  " ++ renderRegexObj obj)) ++
      "\n]"

/-- parser.parseRegex with the engine outcomes passed in: compiles is the
    success of regexp.Compile and matches the FindAllStringSubmatch
    result (empty when there is no match).  The Go error wraps the engine
    message after the prefix text; the model keeps the prefix. -/
def parseRegex (pattern : String) (compiles : Bool) (found : List (List String))
    (groups : List Group) : Except String String :=
  if pattern = "" then .error "regex pattern is required"
  else if !compiles then .error "invalid regex pattern"
  else .ok (marshalRegexResults (found.map (perMatchObject groups)))

/-- json.MarshalIndent of a string slice that is never nil. -/
def renderStrArray (items : List String) : String :=
  if items.isEmpty then "[]"
  else "[\n" ++ String.intercalate ",\n" (items.map (fun s => "  " ++ jsonQuote s)) ++ "\n]"

/-- parser.parseLines: trim, split on newline, trim each line, drop the
    empty ones, marshal as a JSON array of strings. -/
def parseLines (output : String) : Except String String :=
  let lines := strSplitChar (trimSpaceStr output) '\n' 
  let filtered := lines.filterMap (fun line =>
    let trimmed := trimSpaceStr line
    if trimmed ≠ "" then some trimmed else none)
  .ok (renderStrArray filtered)

/-- parser.ParseOutput dispatch.  The json, regex, csv and xml branches
    run Go standard library codecs and are abstracted by the ext
    parameter; raw and unknown types pass the output through. -/
def ParseOutputModel (ext : String → Output → Except String String)
    (output : String) (outputCfg : Output) : Except String String :=
  match outputCfg.type with
  | "json" => ext output outputCfg
  | "lines" => parseLines output
  | "regex" => ext output outputCfg
  | "csv" => ext output outputCfg
  | "xml" => ext output outputCfg
  | _ => .ok output

/-! ## Process Executor (internal/executor/executor.go) -/

/-- The marker appended after truncation in Execute. -/
def truncationMarker : String := "\n... (output truncated)"

/-- UTF-8 bytes of an ASCII string (every character below 128). -/
def asciiBytes (s : String) : List Nat := s.data.map Char.toNat

/-- The output-size bound of Execute at the byte level (Go measures len
    in bytes and slices bytes; the marker is ASCII, so its bytes are its
    character codes). -/
def boundOutput (maxOutputSize : Int) (output : List Nat) : List Nat :=
  if 0 < maxOutputSize ∧ (output.length : Int) > maxOutputSize then
    output.take maxOutputSize.toNat ++ asciiBytes truncationMarker
  else output

/-- The output-size bound of Execute over strings: character counts stand
    in for the byte counts of Go, which coincides whenever the captured
    output is ASCII (see boundOutput for the byte-level form). -/
def goTruncate (maxOutputSize : Int) (output : String) : String :=
  if 0 < maxOutputSize ∧ (output.length : Int) > maxOutputSize then
    String.mk (output.data.take maxOutputSize.toNat) ++ truncationMarker
  else output

/-- What one external process run produced: captured streams, the exit
    code when the process failed, and whether the deadline fired. -/
structure RunOutcome where
  stdout : String
  stderr : String
  exitCode : Option Int
  timedOut : Bool

/-- The combined text of one run: stdout, then stderr after a newline
    when non-empty. -/
def stepOut (r : RunOutcome) : String :=
  r.stdout ++ (if r.stderr ≠ "" then "\n" ++ r.stderr else "")

/-- The error text of cmd.Run for a failing process (an exec.ExitError
    prints as exit status N). -/
def runErrText (r : RunOutcome) : Option String :=
  match r.exitCode with
  | some code => some ("exit status " ++ toString code)
  | none => none

/-- Result of CommandExecutor.Execute: which command lines were handed to
    the operating system, the returned output text, and the error. -/
structure ExecOutcome where
  executed : List (List String)
  output : String
  err : Option String

/-- Go %v of a time.Duration, for the whole-second values the claims
    touch. -/
def formatGoDuration (ns : Int) : String :=
  if ns % 1000000000 = 0 then toString (ns / 1000000000) ++ "s"
  else toString ns ++ "ns"

/-- CommandExecutor.Execute with the process run abstracted to its
    RunOutcome: build, validate, run under the timeout, combine stdout
    and stderr, bound the size, report failure, else parse (a parser
    error degrades to returning the raw combined output). -/
def ExecuteModel (ext : String → Output → Except String String) (cwd : String)
    (cfg : Config) (tool : Tool) (args : List (String × Value))
    (outcome : RunOutcome) : ExecOutcome :=
  match BuildCommand cfg tool args with
  | .error e => ⟨[], "", some ("failed to build command: " ++ e)⟩
  | .ok cmdParts =>
    match ValidateCommand cwd cmdParts cfg.security with
    | .error e => ⟨[], "", some ("command blocked by security policy: " ++ e)⟩
    | .ok _ =>
      let timeout := if cfg.settings.timeout = 0 then 30000000000 else cfg.settings.timeout
      if outcome.timedOut then
        ⟨[cmdParts], "", some ("command timed out after " ++ formatGoDuration timeout)⟩
      else
        let combined :=
          outcome.stdout ++ (if outcome.stderr ≠ "" then "\n" ++ outcome.stderr else "")
        let output := goTruncate cfg.security.maxOutputSize combined
        match outcome.exitCode with
        | some code =>
          ⟨[cmdParts], output, some ("command failed with exit code " ++ toString code)⟩
        | none =>
          match ParseOutputModel ext output tool.output with
          | .error _ => ⟨[cmdParts], output, none⟩
          | .ok parsed => ⟨[cmdParts], parsed, none⟩

/-- CommandExecutor.substituteVariables: replace every occurrence of each
    placeholder by the %v form of the argument (Go iterates the map in
    unspecified order; the model uses list order, which only matters for
    overlapping placeholder names). -/
def substituteVariables (input : String) (args : List (String × Value)) : String :=
  args.foldl
    (fun result kv => result.replace ("$\x7b" ++ kv.1 ++ "\x7d") (goSprintV kv.2)) input

/-- The command line of one chain step: base command, the optional step
    sub-command, then the substituted argument templates. -/
def buildStepParts (cfg : Config) (args : List (String × Value)) (step : Chain) :
    List String :=
  [cfg.settings.command] ++ (if step.command ≠ "" then [step.command] else []) ++
    step.arguments.map (fun a => substituteVariables a args)

/-- Accumulated state of the chain loop: command lines handed to the
    operating system, per-step outputs, and the error that stopped it. -/
structure ChainAcc where
  executed : List (List String)
  outputs : List String
  err : Option String

/-- The loop of CommandExecutor.ExecuteChain from step index i (0-based;
    messages use i + 1). -/
def chainLoop (run : List String → RunOutcome) (cfg : Config)
    (args : List (String × Value)) : List Chain → Nat → ChainAcc
  | [], _ => ⟨[], [], none⟩
  | step :: rest, i =>
    let parts := buildStepParts cfg args step
    let r := run parts
    match runErrText r with
    | some e =>
      ⟨[parts], [], some ("chain step " ++ toString (i + 1) ++ " failed: " ++ e)⟩
    | none =>
      let acc := chainLoop run cfg args rest (i + 1)
      ⟨parts :: acc.executed, stepOut r :: acc.outputs, acc.err⟩

/-- CommandExecutor.ExecuteChain: the newline-joined outputs of the
    successful steps together with the stopping error, if any. -/
def ExecuteChainModel (run : List String → RunOutcome) (cfg : Config)
    (chain : List Chain) (args : List (String × Value)) : String × Option String :=
  let acc := chainLoop run cfg args chain 0
  (String.intercalate "\n" acc.outputs, acc.err)

/-! ## Protocol Dispatcher (internal/mcp/protocol.go, server.go) -/

/-- JSON-RPC error codes (protocol.go). -/
def ParseError : Int := -32700

/-- JSON-RPC error code for an invalid request. -/
def InvalidRequest : Int := -32600

/-- JSON-RPC error code for an unknown method. -/
def MethodNotFound : Int := -32601

/-- JSON-RPC error code for invalid parameters. -/
def InvalidParams : Int := -32602

/-- JSON-RPC error code for an internal error. -/
def InternalError : Int := -32603

/-- A reply of the tools/call handler: a transport-level JSON-RPC error
    object, or a success-shaped result carrying content text and the
    isError flag. -/
inductive Reply where
  | errorReply : Int → String → Reply
  | resultReply : String → Bool → Reply

/-- Go map insertion for the tool index. -/
def mapInsert {α : Type} (k : String) (v : α) (m : List (String × α)) :
    List (String × α) :=
  m.filter (fun p => p.1 ≠ k) ++ [(k, v)]

/-- The fully qualified tool name catalog_tool (server.go NewServer). -/
def fullToolName (cfg : Config) (t : Tool) : String :=
  cfg.metadata.name ++ "_" ++ t.name

/-- The tool index built by NewServer: every tool of every catalog under
    its fully qualified name. -/
def indexToolsGo (configs : List Config) : List (String × Tool) :=
  ((configs.map (fun cfg => cfg.tools.map (fun t => (fullToolName cfg t, t)))).flatten).foldl
    (fun m p => mapInsert p.1 p.2 m) []

/-- The catalog scan of handleToolCall that recovers the owning Config of
    a fully qualified name. -/
def findToolConfig (configs : List Config) (name : String) : Option Config :=
  configs.find? (fun cfg => cfg.tools.any (fun t => fullToolName cfg t = name))

/-- Server.handleToolCall for an already-decoded tools/call parameter
    set: unknown names answer the InvalidParams transport error with no
    command executed; known names run the executor and always answer a
    success-shaped result whose isError flag mirrors the execution
    error. -/
def handleToolCallModel (ext : String → Output → Except String String) (cwd : String)
    (configs : List Config) (name : String) (args : List (String × Value))
    (outcome : RunOutcome) : Reply × List (List String) :=
  match (indexToolsGo configs).lookup name with
  | none => (.errorReply InvalidParams ("Tool not found: " ++ name), [])
  | some tool =>
    match findToolConfig configs name with
    | none => (.errorReply InternalError "Configuration not found", [])
    | some cfg =>
      let r := ExecuteModel ext cwd cfg tool args outcome
      match r.err with
      | some e => (.resultReply ("Command failed: " ++ e) true, r.executed)
      | none => (.resultReply r.output false, r.executed)

/-- A policy that asks for injection checking to be disabled. -/
def secInjectionOff : Security :=
  { allowedPaths := [], blockedCommands := [], maxOutputSize := 0, rateLimit := "",
    disableInjectionCheck := true }

/-- A policy blocking the command rm. -/
def secBlockRm : Security :=
  { allowedPaths := [], blockedCommands := ["rm"], maxOutputSize := 0, rateLimit := "",
    disableInjectionCheck := false }

/-- The string form the array branch and the string case of formatValue
    emit: the string itself, else its %v rendering. -/
def stringForm : Value → String
  | .vstr s => s
  | v => goSprintV v

/-- The typing predicate of the claims: a supplied dynamic value matches
    the declared semantic type of an argument.  This formalises the
    precondition wording of the spec (value matching its declared type);
    numeric values decoded from JSON arrive as floats, so both integer
    shapes match the numeric types, and unknown declared types accept
    anything, as the formatter treats them as strings. -/
def matchesType : String → Value → Bool
  | "string", v =>
    match v with
    | .vstr _ => true
    | _ => false
  | "boolean", v =>
    match v with
    | .vbool _ => true
    | _ => false
  | "integer", v =>
    match v with
    | .vint _ => true
    | .vfloat _ => true
    | _ => false
  | "float", v =>
    match v with
    | .vfloat _ => true
    | .vint _ => true
    | _ => false
  | "array", v =>
    match v with
    | .varr _ => true
    | _ => false
  | "object", v =>
    match v with
    | .vobj _ => true
    | _ => false
  | _, _ => true

/-- A minimal catalog configuration for the builder claims. -/
def cfgC5 : Config :=
  ⟨"1.0", ⟨"demo", "", ""⟩, ⟨"tool", "", 0, [], ""⟩, ⟨[], [], 0, "", false⟩, []⟩

/-- A tool with a single optional integer flag argument. -/
def toolC5 : Tool :=
  ⟨"t", "d", "", [⟨"n", "", "integer", false, "-n", none, none, none, "", "", false, 0⟩],
   ⟨"raw", "", [], ""⟩, []⟩

/-- A catalog whose base command is git, for the chain claim. -/
def cfgC6 : Config :=
  ⟨"1.0", ⟨"demo", "", ""⟩, ⟨"git", "", 0, [], ""⟩, ⟨[], [], 0, "", false⟩, []⟩

/-- A process environment in which the step git one succeeds with output
    a and every other command fails with exit status 1. -/
def runC6 : List String → RunOutcome := fun parts =>
  if parts = ["git", "one"] then ⟨"a", "", none, false⟩ else ⟨"", "", some 1, false⟩

/-- A codec stub for claims whose scenarios never reach the codec-backed
    parser branches. -/
def extStub : String → Output → Except String String := fun _ _ => .ok ""

/-- A catalog with a one-byte output bound, for the truncation claim. -/
def cfgC7 : Config :=
  ⟨"1.0", ⟨"demo", "", ""⟩, ⟨"cat", "", 0, [], ""⟩, ⟨[], [], 1, "", false⟩, []⟩

/-- A tool whose output is parsed with the lines parser. -/
def toolC7 : Tool := ⟨"t", "d", "", [], ⟨"lines", "", [], ""⟩, []⟩

/-- A catalog declaring the single tool git_status, for the dispatcher
    claim. -/
def cfgC8 : Config :=
  ⟨"1.0", ⟨"git", "", ""⟩, ⟨"git", "", 0, [], ""⟩, ⟨[], [], 0, "", false⟩,
   [⟨"status", "d", "status", [], ⟨"raw", "", [], ""⟩, []⟩]⟩

/-! ## Shared lemmas -/

/-- Key membership through objInsert: the inserted key joins the existing
    keys. -/
theorem objHasKey_objInsert (k k2 : String) (v : CellValue)
    (obj : List (String × CellValue)) :
    (objHasKey k (objInsert k2 v obj) = true) ↔ (k = k2 ∨ objHasKey k obj = true) := by
  simp only [objHasKey, objInsert, List.any_append, List.any_eq_true, List.mem_filter,
    decide_eq_true_eq, Bool.or_eq_true, List.any_cons, List.any_nil, Bool.or_false]
  constructor
  · rintro (⟨p, ⟨hp, _⟩, hk⟩ | hk)
    · exact Or.inr ⟨p, hp, hk⟩
    · exact Or.inl hk.symm
  · rintro (rfl | ⟨p, hp, hk⟩)
    · exact Or.inr rfl
    · by_cases hpk : p.1 = k2
      · exact Or.inr (hk ▸ hpk.symm)
      · exact Or.inl ⟨p, ⟨hp, by simpa using hpk⟩, hk⟩

/-- Key membership through the named-groups loop: a key is present after
    the loop when it was present before, or some declared group at list
    offset j has that name and its capture index fits the match. -/
theorem objHasKey_buildNamed (m : List String) (gs : List Group) (i : Nat)
    (obj : List (String × CellValue)) (k : String) :
    (objHasKey k (buildNamed m gs i obj) = true) ↔
      (objHasKey k obj = true ∨
        ∃ j, j < gs.length ∧ (gs.getD j ⟨"", ""⟩).name = k ∧ i + j + 1 < m.length) := by
  induction gs generalizing i obj with
  | nil => simp [buildNamed]
  | cons g gs ih =>
    rw [buildNamed, ih]
    by_cases h : i + 1 < m.length
    · rw [if_pos h, objHasKey_objInsert]
      constructor
      · rintro ((rfl | hk) | ⟨j, hj, hname, hcap⟩)
        · exact Or.inr ⟨0, by simpa using h⟩
        · exact Or.inl hk
        · exact Or.inr ⟨j + 1, by simpa using hj, by simpa using hname, by omega⟩
      · rintro (hk | ⟨j, hj, hname, hcap⟩)
        · exact Or.inl (Or.inr hk)
        · match j with
          | 0 => exact Or.inl (Or.inl (by simpa using hname.symm))
          | j + 1 =>
            exact Or.inr ⟨j, by simpa using hj, by simpa using hname, by omega⟩
    · rw [if_neg h]
      constructor
      · rintro (hk | ⟨j, hj, hname, hcap⟩)
        · exact Or.inl hk
        · exact Or.inr ⟨j + 1, by simpa using hj, by simpa using hname, by omega⟩
      · rintro (hk | ⟨j, hj, hname, hcap⟩)
        · exact Or.inl hk
        · match j with
          | 0 => exact absurd (by simpa using hcap) h
          | j + 1 =>
            exact Or.inr ⟨j, by simpa using hj, by simpa using hname, by omega⟩

/-! ## Claims about the Sandbox -/

/-- C1: the claim reads that ValidateCommand accepts a token containing a
    semicolon when the policy disables injection checking.  The source
    never consults Security.DisableInjectionCheck: with the flag set, the
    token list echo, a;b is still rejected by the injection scan, against
    the declared purpose of the flag in schema.go. -/
theorem C1_injection_flag_ignored :
    secInjectionOff.disableInjectionCheck = true ∧
    ValidateCommand "/work" ["echo", "a;b"] secInjectionOff =
      Except.error "potential command injection detected" :=
  ⟨rfl, rfl⟩

/-- C3 counterexample: the token list echo, rm has a non-first token whose
    basename rm is blocked, yet ValidateCommand accepts the list — the
    blocked-command check only reads the first token. -/
theorem C3_counterexample :
    IsCommandBlocked (goBase "rm") secBlockRm.blockedCommands = true ∧
    ValidateCommand "/work" ["echo", "rm"] secBlockRm = Except.ok () :=
  ⟨rfl, rfl⟩

/-- C3 amended: only the basename of the first token is checked against
    the blocked-command set; when it is blocked the list is rejected with
    that command name, independent of the remaining tokens. -/
theorem C3_first_token_blocked (cwd first : String) (rest : List String)
    (security : Security)
    (h : IsCommandBlocked (goBase first) security.blockedCommands = true) :
    ValidateCommand cwd (first :: rest) security =
      Except.error ("command \x27" ++ goBase first ++ "\x27 is blocked") := by
  unfold ValidateCommand
  simp [h]

/-- C3 witness: a concrete blocked first token is rejected. -/
theorem C3_witness :
    ValidateCommand "/work" ["rm", "/tmp/x"] secBlockRm =
      Except.error "command \x27rm\x27 is blocked" :=
  C3_first_token_blocked "/work" "rm" ["/tmp/x"] secBlockRm (by decide)

/-- C4: with an empty allowed set every path passes; with a non-empty set
    a path passes exactly when the absolute form of some allowed entry is
    a plain string prefix of the absolute form of the path — in
    particular the allowed entry /home/user admits /home/user2. -/
theorem C4_allowed_path_containment (cwd path : String) (allowedPaths : List String) :
    (allowedPaths = [] → IsPathAllowed cwd path allowedPaths = true) ∧
    (allowedPaths ≠ [] →
      (IsPathAllowed cwd path allowedPaths = true ↔
        ∃ a ∈ allowedPaths, goHasPre (goAbs cwd path) (goAbs cwd a) = true)) ∧
    IsPathAllowed cwd "/home/user2" ["/home/user"] = true := by
  refine ⟨?_, ?_, ?_⟩
  · rintro rfl; rfl
  · intro h
    unfold IsPathAllowed
    rw [if_neg (by simpa using h)]
    exact List.any_eq_true
  · rfl

/-- C4 witness: an empty allowed set admits a concrete path, and the
    concrete admission of /home/user2 under /home/user. -/
theorem C4_witness :
    IsPathAllowed "/work" "/etc/passwd" [] = true ∧
    IsPathAllowed "/work" "/home/user2" ["/home/user"] = true :=
  ⟨(C4_allowed_path_containment "/work" "/etc/passwd" []).1 rfl,
   (C4_allowed_path_containment "/work" "/home/user2" ["/home/user"]).2.2⟩

/-! ## Claims about the Output Parser -/

/-- C2 counterexample: with a compilable non-empty pattern and zero
    matches, parseRegex answers the JSON text null, which is not the
    empty-array text the claim states. -/
theorem C2_counterexample :
    parseRegex "a" true [] [] = Except.ok "null" ∧ "null" ≠ "[]" :=
  ⟨rfl, by decide⟩

/-- C2 amended: for every non-empty compilable pattern, zero matches make
    parseRegex return the JSON text null (the nil result slice marshals
    as null) and never an error. -/
theorem C2_zero_matches_null (pattern : String) (groups : List Group)
    (h : pattern ≠ "") :
    parseRegex pattern true [] groups = Except.ok "null" := by
  unfold parseRegex
  rw [if_neg h]
  rfl

/-- C2 witness: a concrete pattern with declared groups and no match. -/
theorem C2_witness :
    parseRegex "(a+)" true [] [⟨"g", "string"⟩] = Except.ok "null" :=
  C2_zero_matches_null "(a+)" [⟨"g", "string"⟩] (by decide)

/-- C10: with more declared groups than the match can serve, parseRegex
    still succeeds, and the per-match object holds a key exactly when
    some declared group at offset j bears it with capture index j + 1
    inside the match — excess groups are silently dropped. -/
theorem C10_excess_groups_safe (pattern : String) (found : List (List String))
    (groups : List Group) (m : List String) (k : String)
    (hg : 0 < groups.length) (hp : pattern ≠ "") :
    (∃ s, parseRegex pattern true found groups = Except.ok s) ∧
    (objHasKey k (perMatchObject groups m) = true ↔
      ∃ j, j < groups.length ∧ (groups.getD j ⟨"", ""⟩).name = k ∧ j + 1 < m.length) := by
  constructor
  · refine ⟨marshalRegexResults (found.map (perMatchObject groups)), ?_⟩
    unfold parseRegex
    rw [if_neg hp]
    rfl
  · unfold perMatchObject
    rw [if_pos hg, objHasKey_buildNamed]
    simp [objHasKey]

/-- C10 witness: three declared groups over a match of length two keep
    only the first group name. -/
theorem C10_witness :
    (∃ s, parseRegex "(x)" true [["full", "x"]]
        [⟨"a", "string"⟩, ⟨"b", "string"⟩, ⟨"c", "string"⟩] = Except.ok s) ∧
    (objHasKey "b" (perMatchObject [⟨"a", "string"⟩, ⟨"b", "string"⟩, ⟨"c", "string"⟩]
        ["full", "x"]) = true ↔
      ∃ j, j < ([⟨"a", "string"⟩, ⟨"b", "string"⟩, ⟨"c", "string"⟩] : List Group).length ∧
        (([⟨"a", "string"⟩, ⟨"b", "string"⟩, ⟨"c", "string"⟩] : List Group).getD j
            ⟨"", ""⟩).name = "b" ∧
        j + 1 < (["full", "x"] : List String).length) :=
  C10_excess_groups_safe "(x)" [["full", "x"]]
    [⟨"a", "string"⟩, ⟨"b", "string"⟩, ⟨"c", "string"⟩] ["full", "x"] "b"
    (by decide) (by decide)

/-! ## Builder lemmas -/

/-- The string case of formatValue never fails and yields stringForm. -/
theorem formatValue_string (v : Value) :
    formatValue "string" v = Except.ok (stringForm v) := by
  cases v <;> rfl

/-- formatValue succeeds on every value matching the declared type. -/
theorem formatValue_isOk (t : String) (v : Value) (h : matchesType t v = true) :
    ∃ s, formatValue t v = Except.ok s := by
  by_cases h1 : t = "string"
  · subst h1; exact ⟨_, formatValue_string v⟩
  by_cases h2 : t = "integer"
  · subst h2
    cases v with
    | vstr s => exact Bool.noConfusion h
    | vbool b => exact Bool.noConfusion h
    | vint n => exact ⟨_, rfl⟩
    | vfloat f => exact ⟨_, rfl⟩
    | varr l => exact Bool.noConfusion h
    | vobj o => exact Bool.noConfusion h
  by_cases h3 : t = "float"
  · subst h3
    cases v with
    | vstr s => exact Bool.noConfusion h
    | vbool b => exact Bool.noConfusion h
    | vint n => exact ⟨_, rfl⟩
    | vfloat f => exact ⟨_, rfl⟩
    | varr l => exact Bool.noConfusion h
    | vobj o => exact Bool.noConfusion h
  by_cases h4 : t = "object"
  · subst h4; exact ⟨_, rfl⟩
  · unfold formatValue
    split
    all_goals first
      | exact ⟨_, rfl⟩
      | simp_all

/-- The array-element loop of buildFlag never fails. -/
theorem buildArrayItems_isOk (flag : String) (items : List Value) :
    ∃ l, buildArrayItems flag items = Except.ok l := by
  induction items with
  | nil => exact ⟨[], rfl⟩
  | cons item rest ih =>
    obtain ⟨l, hl⟩ := ih
    simp only [buildArrayItems, formatValue_string, hl]
    split
    · exact ⟨_, rfl⟩
    · exact ⟨_, rfl⟩

/-- buildFlag succeeds on every value matching the declared type. -/
theorem buildFlag_isOk (arg : Argument) (v : Value) (h : matchesType arg.type v = true) :
    ∃ l, buildFlag arg v = Except.ok l := by
  unfold buildFlag
  split
  · rename_i heq
    rw [heq] at h
    cases v with
    | vbool b =>
      by_cases hb : (b && decide (arg.flag ≠ "")) = true
      · refine ⟨[arg.flag], ?_⟩
        show (if (b && decide (arg.flag ≠ "")) = true then Except.ok [arg.flag]
              else Except.ok []) = Except.ok [arg.flag]
        rw [if_pos hb]
      · refine ⟨[], ?_⟩
        show (if (b && decide (arg.flag ≠ "")) = true then Except.ok [arg.flag]
              else Except.ok []) = Except.ok []
        rw [if_neg hb]
    | vstr s => exact Bool.noConfusion h
    | vint n => exact Bool.noConfusion h
    | vfloat f => exact Bool.noConfusion h
    | varr l => exact Bool.noConfusion h
    | vobj o => exact Bool.noConfusion h
  · exact buildArrayItems_isOk _ _
  · obtain ⟨s, hs⟩ := formatValue_isOk arg.type v h
    simp only [hs]
    split
    · exact ⟨_, rfl⟩
    · split
      · exact ⟨_, rfl⟩
      · exact ⟨_, rfl⟩

/-- Membership through the position-insertion step. -/
theorem mem_insertByPos {a b : Argument} {l : List Argument} :
    a ∈ insertByPos b l ↔ a = b ∨ a ∈ l := by
  induction l with
  | nil => simp [insertByPos]
  | cons c rest ih =>
    unfold insertByPos
    split
    · simp [List.mem_cons]
    · rw [List.mem_cons, ih, List.mem_cons]
      tauto

/-- Membership through the position sort. -/
theorem mem_sortByPos {a : Argument} {l : List Argument} :
    a ∈ l.foldr insertByPos [] ↔ a ∈ l := by
  induction l with
  | nil => simp
  | cons b rest ih => simp [List.foldr, mem_insertByPos, ih]

/-- Every extracted positional argument is an argument of the tool. -/
theorem mem_extractPositionalArgs {a : Argument} {l : List Argument}
    (h : a ∈ extractPositionalArgs l) : a ∈ l := by
  unfold extractPositionalArgs at h
  rw [mem_sortByPos] at h
  exact (List.mem_filter.mp h).1

/-- The positional loop succeeds whenever required arguments are supplied
    and supplied and defaulted values match their declared types. -/
theorem processPositionals_isOk (args : List (String × Value)) (l : List Argument)
    (hreq : ∀ arg ∈ l, arg.required = true → ∃ v, args.lookup arg.name = some v)
    (hsup : ∀ arg ∈ l, ∀ v, args.lookup arg.name = some v → matchesType arg.type v = true)
    (hdef : ∀ arg ∈ l, ∀ d, arg.default = some d → args.lookup arg.name = none →
      matchesType arg.type d = true) :
    ∃ ts, processPositionals args l = Except.ok ts := by
  induction l with
  | nil => exact ⟨[], rfl⟩
  | cons arg rest ih =>
    obtain ⟨ts, hts⟩ := ih
      (fun a ha => hreq a (List.mem_cons_of_mem _ ha))
      (fun a ha => hsup a (List.mem_cons_of_mem _ ha))
      (fun a ha => hdef a (List.mem_cons_of_mem _ ha))
    have hmem : arg ∈ arg :: rest := List.mem_cons_self _ _
    cases hl : args.lookup arg.name with
    | some v =>
      obtain ⟨s, hs⟩ := formatValue_isOk arg.type v (hsup arg hmem v hl)
      refine ⟨s :: ts, ?_⟩
      simp only [processPositionals, resolveValue, hl, hs, hts]
    | none =>
      cases hd : arg.default with
      | some d =>
        obtain ⟨s, hs⟩ := formatValue_isOk arg.type d (hdef arg hmem d hd hl)
        refine ⟨s :: ts, ?_⟩
        simp only [processPositionals, resolveValue, hl, hd, hs, hts]
      | none =>
        cases hr : arg.required with
        | true =>
          obtain ⟨v, hv⟩ := hreq arg hmem hr
          simp [hv] at hl
        | false =>
          refine ⟨ts, ?_⟩
          simp only [processPositionals, resolveValue, hl, hd, hr, hts,
            Bool.false_eq_true, if_false]

/-- The flag loop succeeds under the same typing conditions. -/
theorem processFlags_isOk (args : List (String × Value)) (l : List Argument)
    (hreq : ∀ arg ∈ l, arg.required = true → ∃ v, args.lookup arg.name = some v)
    (hsup : ∀ arg ∈ l, ∀ v, args.lookup arg.name = some v → matchesType arg.type v = true)
    (hdef : ∀ arg ∈ l, ∀ d, arg.default = some d → args.lookup arg.name = none →
      matchesType arg.type d = true) :
    ∃ ts, processFlags args l = Except.ok ts := by
  induction l with
  | nil => exact ⟨[], rfl⟩
  | cons arg rest ih =>
    obtain ⟨ts, hts⟩ := ih
      (fun a ha => hreq a (List.mem_cons_of_mem _ ha))
      (fun a ha => hsup a (List.mem_cons_of_mem _ ha))
      (fun a ha => hdef a (List.mem_cons_of_mem _ ha))
    have hmem : arg ∈ arg :: rest := List.mem_cons_self _ _
    by_cases hpos : arg.positional = true
    · refine ⟨ts, ?_⟩
      simp only [processFlags, hpos, if_true]
      exact hts
    · have hresolve : ∀ v, matchesType arg.type v = true →
          resolveValue args arg = Resolved.val v →
          ∃ out, processFlags args (arg :: rest) = Except.ok out := by
        intro v hm hres
        obtain ⟨fl, hfl⟩ := buildFlag_isOk arg v hm
        by_cases hw : (arg.«when» ≠ "" && !evaluateCondition arg.«when» args) = true
        · refine ⟨ts, ?_⟩
          unfold processFlags
          rw [if_neg hpos]
          simp only [hres]
          rw [if_pos hw]
          exact hts
        · refine ⟨fl ++ ts, ?_⟩
          unfold processFlags
          rw [if_neg hpos]
          simp only [hres]
          rw [if_neg hw]
          simp only [hfl, hts]
      cases hl : args.lookup arg.name with
      | some v =>
        exact hresolve v (hsup arg hmem v hl)
          (by simp only [resolveValue, hl])
      | none =>
        cases hd : arg.default with
        | some d =>
          exact hresolve d (hdef arg hmem d hd hl)
            (by simp only [resolveValue, hl, hd])
        | none =>
          cases hr : arg.required with
          | true =>
            obtain ⟨v, hv⟩ := hreq arg hmem hr
            simp [hv] at hl
          | false =>
            refine ⟨ts, ?_⟩
            unfold processFlags
            rw [if_neg hpos]
            simp only [resolveValue, hl, hd, hr, Bool.false_eq_true, if_false]
            exact hts

/-! ## Claims about the Command Builder -/

/-- C5 counterexample: the tool has no required arguments, so the claimed
    precondition (every required argument supplied with a matching value)
    holds of the map that supplies the optional integer argument with a
    boolean — yet BuildCommand reaches the InvalidValueType branch and
    errors. -/
theorem C5_counterexample :
    (toolC5.arguments.all (fun a => !a.required)) = true ∧
    BuildCommand cfgC5 toolC5 [("n", Value.vbool true)] =
      Except.error "failed to build flag for n: expected integer, got bool" :=
  ⟨rfl, rfl⟩

/-- C5 amended: BuildCommand never errors when every required argument is
    supplied and, in addition, every supplied value and every default it
    falls back to matches the declared type of its argument (the claim as
    stated omits the last two conditions, and an ill-typed optional
    supplied value or default reaches the error branches). -/
theorem C5_well_typed_builds (cfg : Config) (tool : Tool) (args : List (String × Value))
    (hreq : ∀ arg ∈ tool.arguments, arg.required = true →
      ∃ v, args.lookup arg.name = some v)
    (hsup : ∀ arg ∈ tool.arguments, ∀ v, args.lookup arg.name = some v →
      matchesType arg.type v = true)
    (hdef : ∀ arg ∈ tool.arguments, ∀ d, arg.default = some d →
      args.lookup arg.name = none → matchesType arg.type d = true) :
    ∃ ts, BuildCommand cfg tool args = Except.ok ts := by
  obtain ⟨pos, hpos⟩ := processPositionals_isOk args (extractPositionalArgs tool.arguments)
    (fun a ha => hreq a (mem_extractPositionalArgs ha))
    (fun a ha => hsup a (mem_extractPositionalArgs ha))
    (fun a ha => hdef a (mem_extractPositionalArgs ha))
  obtain ⟨flags, hflags⟩ := processFlags_isOk args tool.arguments hreq hsup hdef
  unfold BuildCommand
  rw [hpos, hflags]
  exact ⟨_, rfl⟩

/-- C5 witness: a well-typed call on the concrete tool builds a token
    list. -/
theorem C5_witness :
    ∃ ts, BuildCommand cfgC5 toolC5 [("n", Value.vint 3)] = Except.ok ts :=
  C5_well_typed_builds cfgC5 toolC5 [("n", Value.vint 3)]
    (by
      intro a ha hr
      rw [show toolC5.arguments =
        [⟨"n", "", "integer", false, "-n", none, none, none, "", "", false, 0⟩] from rfl,
        List.mem_singleton] at ha
      subst ha
      exact absurd hr (by decide))
    (by
      intro a ha v hv
      rw [show toolC5.arguments =
        [⟨"n", "", "integer", false, "-n", none, none, none, "", "", false, 0⟩] from rfl,
        List.mem_singleton] at ha
      subst ha
      have hv2 : some (Value.vint 3) = some v := hv
      cases hv2
      rfl)
    (by
      intro a ha d hd _
      rw [show toolC5.arguments =
        [⟨"n", "", "integer", false, "-n", none, none, none, "", "", false, 0⟩] from rfl,
        List.mem_singleton] at ha
      subst ha
      exact Option.noConfusion hd)

/-- C9: an array-typed argument given a non-list value is treated as a
    one-element array: no type error, the flag emitted once with the
    string form of the value, concatenated when the flag text contains an
    equals sign. -/
theorem C9_array_non_list (arg : Argument) (v : Value)
    (ht : arg.type = "array") (hv : ∀ l, v ≠ Value.varr l) :
    buildFlag arg v =
      Except.ok (if strContains arg.flag "=" = true then [arg.flag ++ stringForm v]
                 else [arg.flag, stringForm v]) := by
  obtain ⟨nm, ds, ty, rq, fl, df, mi, ma, vl, wh, ps, pos⟩ := arg
  simp only at ht
  subst ht
  cases v
  case varr l => exact absurd rfl (hv l)
  all_goals
    simp only [buildFlag, buildArrayItems, formatValue_string]
    split <;> rfl

/-- C9 witness: a concrete string value under an array flag emits the
    repeated-flag form once. -/
theorem C9_witness :
    buildFlag ⟨"tags", "", "array", false, "--tag", none, none, none, "", "", false, 0⟩
      (Value.vstr "x") = Except.ok ["--tag", "x"] := by
  exact C9_array_non_list
    ⟨"tags", "", "array", false, "--tag", none, none, none, "", "", false, 0⟩
    (Value.vstr "x") rfl (fun l h => Value.noConfusion h)

/-! ## Claims about the Process Executor -/

/-- The chain loop up to and including the first failing step: every
    earlier step ran and succeeded, the failing step ran, nothing after
    it ran, and the error names the failing 1-based index. -/
theorem chainLoop_first_failure (run : List String → RunOutcome) (cfg : Config)
    (args : List (String × Value)) (pre : List Chain) (failStep : Chain)
    (post : List Chain) (i : Nat) (e : String)
    (hpre : ∀ s ∈ pre, runErrText (run (buildStepParts cfg args s)) = none)
    (hfail : runErrText (run (buildStepParts cfg args failStep)) = some e) :
    chainLoop run cfg args (pre ++ failStep :: post) i =
      ⟨(pre ++ [failStep]).map (buildStepParts cfg args),
       pre.map (fun s => stepOut (run (buildStepParts cfg args s))),
       some ("chain step " ++ toString (i + pre.length + 1) ++ " failed: " ++ e)⟩ := by
  induction pre generalizing i with
  | nil =>
    simp only [List.nil_append, List.map_cons, List.map_nil, List.length_nil]
    unfold chainLoop
    simp only [hfail]
  | cons s pre ih =>
    have hs := hpre s (List.mem_cons_self _ _)
    have hrest : ∀ s2 ∈ pre, runErrText (run (buildStepParts cfg args s2)) = none :=
      fun s2 hs2 => hpre s2 (List.mem_cons_of_mem _ hs2)
    rw [List.cons_append]
    unfold chainLoop
    simp only [hs, ih (i + 1) hrest]
    have hidx : i + 1 + pre.length + 1 = i + (pre.length + 1) + 1 := by omega
    simp [hidx]

/-- C6: when the first failing step of a chain is step k (1-based), the
    chain runs steps 1 through k in order, runs nothing after k, and
    returns the newline-joined outputs of steps 1 through k-1 together
    with an error naming k (here k = pre.length + 1). -/
theorem C6_chain_stops_at_first_failure (run : List String → RunOutcome) (cfg : Config)
    (args : List (String × Value)) (pre : List Chain) (failStep : Chain)
    (post : List Chain) (e : String)
    (hpre : ∀ s ∈ pre, runErrText (run (buildStepParts cfg args s)) = none)
    (hfail : runErrText (run (buildStepParts cfg args failStep)) = some e) :
    ExecuteChainModel run cfg (pre ++ failStep :: post) args =
      (String.intercalate "\n"
        (pre.map (fun s => stepOut (run (buildStepParts cfg args s)))),
       some ("chain step " ++ toString (pre.length + 1) ++ " failed: " ++ e)) ∧
    (chainLoop run cfg args (pre ++ failStep :: post) 0).executed =
      (pre ++ [failStep]).map (buildStepParts cfg args) := by
  have h := chainLoop_first_failure run cfg args pre failStep post 0 e hpre hfail
  constructor
  · unfold ExecuteChainModel
    rw [h]
    simp
  · rw [h]

/-- C6 witness: a three-step chain whose second step fails stops after
    step two and reports chain step 2. -/
theorem C6_witness :
    ExecuteChainModel runC6 cfgC6 ([⟨"one", []⟩] ++ ⟨"two", []⟩ :: [⟨"three", []⟩]) [] =
      (String.intercalate "\n"
        (([⟨"one", []⟩] : List Chain).map
          (fun s => stepOut (runC6 (buildStepParts cfgC6 [] s)))),
       some ("chain step " ++ toString (([⟨"one", []⟩] : List Chain).length + 1) ++
         " failed: " ++ "exit status 1")) ∧
    (chainLoop runC6 cfgC6 []
        (([⟨"one", []⟩] : List Chain) ++ (⟨"two", []⟩ : Chain) :: [⟨"three", []⟩]) 0).executed =
      (([⟨"one", []⟩] : List Chain) ++ ([⟨"two", []⟩] : List Chain)).map
        (buildStepParts cfgC6 []) :=
  C6_chain_stops_at_first_failure runC6 cfgC6 [] [⟨"one", []⟩] ⟨"two", []⟩
    [⟨"three", []⟩] "exit status 1" (by decide) (by decide)

/-- C7 counterexample: with max-output-size 1 and captured output ab, the
    captured text is truncated before parsing, so an Execute success
    under the lines parser returns the re-encoded JSON array, which does
    not end with the truncation marker and is longer than the claimed
    bound of max size plus marker length. -/
theorem C7_counterexample :
    (ExecuteModel extStub "/w" cfgC7 toolC7 [] ⟨"ab", "", none, false⟩).output =
      "[\n  \"a\",\n  \"... (output truncated)\"\n]" ∧
    (ExecuteModel extStub "/w" cfgC7 toolC7 [] ⟨"ab", "", none, false⟩).err = none ∧
    goHasSuf "[\n  \"a\",\n  \"... (output truncated)\"\n]" truncationMarker = false ∧
    ((("[\n  \"a\",\n  \"... (output truncated)\"\n]" : String).length : Int) >
      cfgC7.security.maxOutputSize + (truncationMarker.length : Int)) :=
  ⟨rfl, rfl, by decide, by decide⟩

/-- C7 amended: the truncation applied to the captured combined output
    (before failure reporting and parsing) keeps exactly the first m
    bytes, appends the marker, has length exactly m plus the marker
    length, and ends with the marker; the output Execute then returns is
    this truncated text only on the failure and raw paths, while a
    successful non-raw parse re-encodes it (see the counterexample). -/
theorem C7_truncation_bound (m : Int) (output : List Nat)
    (h1 : 0 < m) (h2 : (output.length : Int) > m) :
    boundOutput m output = output.take m.toNat ++ asciiBytes truncationMarker ∧
    (boundOutput m output).length = m.toNat + (asciiBytes truncationMarker).length ∧
    List.IsSuffix (asciiBytes truncationMarker) (boundOutput m output) := by
  have heq : boundOutput m output = output.take m.toNat ++ asciiBytes truncationMarker := by
    unfold boundOutput
    rw [if_pos ⟨h1, h2⟩]
  refine ⟨heq, ?_, ?_⟩
  · rw [heq, List.length_append, List.length_take]
    omega
  · rw [heq]
    exact List.suffix_append _ _

/-- C7 witness: a two-byte output under a one-byte bound. -/
theorem C7_witness :
    boundOutput 1 [97, 98] = [97, 98].take ((1 : Int)).toNat ++ asciiBytes truncationMarker ∧
    (boundOutput 1 [97, 98]).length =
      ((1 : Int)).toNat + (asciiBytes truncationMarker).length ∧
    List.IsSuffix (asciiBytes truncationMarker) (boundOutput 1 [97, 98]) :=
  C7_truncation_bound 1 [97, 98] (by decide) (by decide)

/-! ## Claims about the Protocol Dispatcher -/

/-- An association list misses a key exactly when no entry bears it. -/
theorem lookup_none_iff {α : Type} (m : List (String × α)) (k : String) :
    m.lookup k = none ↔ ∀ p ∈ m, p.1 ≠ k := by
  induction m with
  | nil => simp [List.lookup]
  | cons p rest ih =>
    cases p with
    | mk k1 v1 =>
      simp only [List.lookup]
      cases hbeq : k == k1 with
      | true =>
        have hk : k = k1 := eq_of_beq hbeq
        subst hk
        simp
      | false =>
        have hne : k ≠ k1 := ne_of_beq_false hbeq
        simp only [List.mem_cons]
        constructor
        · intro hl q hq
          rcases hq with rfl | hq
          · exact fun hk => hne hk.symm
          · exact (ih.mp hl) q hq
        · intro hall
          exact ih.mpr (fun q hq => hall q (Or.inr hq))

/-- Folding map insertions cannot create a key none of the pairs bear. -/
theorem lookup_foldl_mapInsert_none {α : Type} (pairs : List (String × α))
    (init : List (String × α)) (k : String)
    (hinit : init.lookup k = none) (h : ∀ p ∈ pairs, p.1 ≠ k) :
    (pairs.foldl (fun m p => mapInsert p.1 p.2 m) init).lookup k = none := by
  induction pairs generalizing init with
  | nil => exact hinit
  | cons p rest ih =>
    simp only [List.foldl_cons]
    refine ih _ ?_ (fun q hq => h q (List.mem_cons_of_mem _ hq))
    rw [lookup_none_iff] at hinit ⊢
    intro q hq
    simp only [mapInsert, List.mem_append, List.mem_filter, List.mem_singleton] at hq
    rcases hq with ⟨hmem, _⟩ | hq
    · exact hinit q hmem
    · subst hq
      exact h p (List.mem_cons_self _ _)

/-- A fully qualified name borne by no tool of any catalog is absent from
    the server index. -/
theorem indexTools_lookup_none (configs : List Config) (name : String)
    (h : ∀ cfg ∈ configs, ∀ t ∈ cfg.tools, fullToolName cfg t ≠ name) :
    (indexToolsGo configs).lookup name = none := by
  unfold indexToolsGo
  apply lookup_foldl_mapInsert_none
  · rfl
  · intro p hp
    simp only [List.mem_flatten, List.mem_map] at hp
    obtain ⟨l, ⟨cfg, hcfg, rfl⟩, hpl⟩ := hp
    simp only [List.mem_map] at hpl
    obtain ⟨t, ht, rfl⟩ := hpl
    exact h cfg hcfg t ht

/-- C8: a tools/call naming a fully qualified tool absent from every
    loaded catalog is answered by the transport error InvalidParams
    (-32602) with message Tool not found: name, and no command line is
    handed to the operating system. -/
theorem C8_unknown_tool_rejected (ext : String → Output → Except String String)
    (cwd : String) (configs : List Config) (name : String)
    (args : List (String × Value)) (outcome : RunOutcome)
    (h : ∀ cfg ∈ configs, ∀ t ∈ cfg.tools, fullToolName cfg t ≠ name) :
    handleToolCallModel ext cwd configs name args outcome =
      (Reply.errorReply InvalidParams ("Tool not found: " ++ name), []) ∧
    InvalidParams = -32602 := by
  refine ⟨?_, rfl⟩
  unfold handleToolCallModel
  rw [indexTools_lookup_none configs name h]

/-- C8 witness: the unregistered name foo_bar against a catalog declaring
    only git_status. -/
theorem C8_witness :
    handleToolCallModel extStub "/w" [cfgC8] "foo_bar" [] ⟨"", "", none, false⟩ =
      (Reply.errorReply InvalidParams ("Tool not found: " ++ "foo_bar"), []) ∧
    InvalidParams = -32602 :=
  C8_unknown_tool_rejected extStub "/w" [cfgC8] "foo_bar" [] ⟨"", "", none, false⟩
    (by decide)

end Umcp
